import Mathlib

/-!
Verification of the row-normalization and Compare & Clean logic of the
processor-excel repository (a spreadsheet lead-processing server).

The JavaScript source (src/backend/server.js and the revision in
src/unnamed/part_002) is shallowly embedded here:

* a spreadsheet `Row` (a JS object) is an association list of
  string-keyed string values in insertion order; `lookupRow`, `setRow`
  and `deleteRow` mirror property read, property write (update in place
  or append) and `delete`;
* strings are manipulated as `List Char`, mirroring JS string methods
  (`trim`, `toLowerCase`, `includes`, `startsWith`, `slice`,
  regex-based digit stripping and whitespace collapsing);
* Unicode NFD normalization is modelled for the Latin accented letters
  that occur in the repository's French vocabulary (a lookup table,
  identity elsewhere).
-/

/-! ## Character helpers -/

def upperChars : List Char :=
  ['A','B','C','D','E','F','G','H','I','J','K','L','M',
   'N','O','P','Q','R','S','T','U','V','W','X','Y','Z']

/-- ASCII uppercase test, as a membership in the literal A–Z list. -/
def asciiUpper (c : Char) : Bool := decide (c ∈ upperChars)

/-- Case folding table: ASCII A–Z plus the Latin accented capitals used in
the repository's French vocabulary (modelling JS `toLowerCase`). -/
def caseTable : List (Char × Char) :=
  [('A','a'),('B','b'),('C','c'),('D','d'),('E','e'),('F','f'),('G','g'),
   ('H','h'),('I','i'),('J','j'),('K','k'),('L','l'),('M','m'),('N','n'),
   ('O','o'),('P','p'),('Q','q'),('R','r'),('S','s'),('T','t'),('U','u'),
   ('V','v'),('W','w'),('X','x'),('Y','y'),('Z','z'),
   ('À','à'),('Â','â'),('Ä','ä'),('Ç','ç'),('É','é'),('È','è'),('Ê','ê'),
   ('Ë','ë'),('Î','î'),('Ï','ï'),('Ô','ô'),('Ö','ö'),('Ù','ù'),('Û','û'),
   ('Ü','ü'),('Ñ','ñ')]

def jsToLower (c : Char) : Char :=
  match List.lookup c caseTable with
  | some l => l
  | none => c

/-- NFD decompositions of the Latin accented lowercase letters
(base letter followed by a combining mark in U+0300–U+036F). -/
def nfdTable : List (Char × List Char) :=
  [('à',['a',(Char.ofNat 0x300)]),('â',['a',(Char.ofNat 0x302)]),
   ('ä',['a',(Char.ofNat 0x308)]),('ç',['c',(Char.ofNat 0x327)]),
   ('é',['e',(Char.ofNat 0x301)]),('è',['e',(Char.ofNat 0x300)]),
   ('ê',['e',(Char.ofNat 0x302)]),('ë',['e',(Char.ofNat 0x308)]),
   ('î',['i',(Char.ofNat 0x302)]),('ï',['i',(Char.ofNat 0x308)]),
   ('ô',['o',(Char.ofNat 0x302)]),('ö',['o',(Char.ofNat 0x308)]),
   ('ù',['u',(Char.ofNat 0x300)]),('û',['u',(Char.ofNat 0x302)]),
   ('ü',['u',(Char.ofNat 0x308)]),('ñ',['n',(Char.ofNat 0x303)])]

def nfdChar (c : Char) : List Char :=
  match List.lookup c nfdTable with
  | some l => l
  | none => [c]

def nfdL (l : List Char) : List Char := (l.map nfdChar).flatten

/-- A combining diacritical mark, U+0300–U+036F (the class removed by the
source's `replace(/[\u0300-\u036f]/g, '')`). -/
def isCombiningMark (c : Char) : Bool :=
  decide (0x300 ≤ c.toNat ∧ c.toNat ≤ 0x36F)

/-- JS regex `\w`: ASCII letters, digits and underscore. -/
def isWordChar (c : Char) : Bool :=
  (decide ('a' ≤ c) && decide (c ≤ 'z')) ||
  (decide ('A' ≤ c) && decide (c ≤ 'Z')) ||
  (decide ('0' ≤ c) && decide (c ≤ '9')) || decide (c = '_')

/-- The JS regex `\s` whitespace characters. -/
def jsSpaceChars : List Char :=
  [' ', '\t', '\n', Char.ofNat 0x0B, Char.ofNat 0x0C, '\r',
   Char.ofNat 0xA0, Char.ofNat 0x1680, Char.ofNat 0x2000,
   Char.ofNat 0x2001, Char.ofNat 0x2002, Char.ofNat 0x2003,
   Char.ofNat 0x2004, Char.ofNat 0x2005, Char.ofNat 0x2006,
   Char.ofNat 0x2007, Char.ofNat 0x2008, Char.ofNat 0x2009,
   Char.ofNat 0x200A, Char.ofNat 0x2028, Char.ofNat 0x2029,
   Char.ofNat 0x202F, Char.ofNat 0x205F, Char.ofNat 0x3000,
   Char.ofNat 0xFEFF]

/-- JS regex `\s` (whitespace class, also used by `String.prototype.trim`). -/
def isJsSpace (c : Char) : Bool := decide (c ∈ jsSpaceChars)

/-! ## String helpers (JS string methods on `List Char`) -/

/-- JS `String.prototype.trim`. -/
def jsTrim (l : List Char) : List Char :=
  (((l.dropWhile isJsSpace).reverse).dropWhile isJsSpace).reverse

/-- JS `String.prototype.includes` (substring containment). -/
def jsIncludes (hay nd : List Char) : Bool :=
  match hay with
  | [] => nd.isEmpty
  | _ :: t => nd.isPrefixOf hay || jsIncludes t nd

/-- The source's `replace(/p:\+|p:/gi, '')`: delete every occurrence of
`p:+` or `p:` (case-insensitive on the letter), scanning left to right and
preferring the longer alternative, as the regex engine does. -/
def stripPTag : List Char → List Char
  | [] => []
  | c :: ':' :: '+' :: rest =>
      if c = 'p' ∨ c = 'P' then stripPTag rest else c :: stripPTag (':' :: '+' :: rest)
  | c :: ':' :: rest =>
      if c = 'p' ∨ c = 'P' then stripPTag rest else c :: stripPTag (':' :: rest)
  | c :: rest => c :: stripPTag rest

/-- JS `replace(/\s+/g, ' ')`: collapse each run of whitespace into one space. -/
def collapseWs : List Char → List Char
  | [] => []
  | [c] => if isJsSpace c then [' '] else [c]
  | c :: d :: rest =>
      if isJsSpace c ∧ isJsSpace d then collapseWs (d :: rest)
      else (if isJsSpace c then ' ' else c) :: collapseWs (d :: rest)

/-! ## Row model: a JS object as an insertion-ordered association list -/

abbrev Row := List (String × String)

/-- Property read `row[k]` (`none` models JS `undefined`). -/
def lookupRow : Row → String → Option String
  | [], _ => none
  | (k', v') :: rest, k => if k' = k then some v' else lookupRow rest k

/-- Property write `row[k] = v`: update the existing key in place, else
append a new key at the end (JS object insertion order). -/
def setRow : Row → String → String → Row
  | [], k, v => [(k, v)]
  | (k', v') :: rest, k, v =>
      if k' = k then (k, v) :: rest else (k', v') :: setRow rest k v

/-- Property removal `delete row[k]`. -/
def deleteRow : Row → String → Row
  | [], _ => []
  | (k', v') :: rest, k => if k' = k then rest else (k', v') :: deleteRow rest k

/-- JS truthiness of `row[k]` for string-valued cells: present and not `''`. -/
def truthy (row : Row) (k : String) : Bool :=
  match lookupRow row k with
  | some v => v ≠ ""
  | none => false

def rowKeys (row : Row) : List String := row.map Prod.fst

def deleteCols (row : Row) (cols : List String) : Row :=
  cols.foldl (fun acc c => deleteRow acc c) row

/-! ## Phone normalizer (`normalisePhone`, server.js lines 104–149) -/

def phoneCands : List String :=
  ["phone_number", "phone", "Phone", "Phone Number",
   "phone number", "Phone_Number", "PhoneNumber"]

/-- Country-code stripping: the `033` / `33` / `213` / `1` cascade. -/
def stripCC (p : List Char) : List Char :=
  if p.take 3 = ['0','3','3'] then p.drop 3
  else if p.take 2 = ['3','3'] then p.drop 2
  else if p.take 3 = ['2','1','3'] then p.drop 3
  else if p.take 1 = ['1'] then p.drop 1
  else p

/-- `XXXX XXX XXX` formatting of a 10-digit string
(`slice(0,4) + ' ' + slice(4,7) + ' ' + slice(7)`). -/
def fmtPhone (p : List Char) : List Char :=
  p.take 4 ++ [' '] ++ ((p.drop 4).take 3) ++ [' '] ++ p.drop 7

/-- Pad a 9-digit number that does not start with `0` with a leading `0`. -/
def phonePadStep (p : List Char) : List Char :=
  if p.length = 9 ∧ ¬ p.take 1 = ['0'] then '0' :: p else p

/-- Format a 10-digit number as `XXXX XXX XXX`; leave anything else alone. -/
def phoneFmtStep (p : List Char) : List Char :=
  if p.length = 10 then fmtPhone p else p

/-- The whole value transformation of `normalisePhone`: strip `p:` tags,
keep digits, trim, strip one country code, pad a 9-digit number with a
leading 0, and format a 10-digit number. -/
def phonePipeline (v : String) : List Char :=
  phoneFmtStep (phonePadStep (stripCC (jsTrim ((stripPTag v.data).filter Char.isDigit))))

/-- `row` after writing the canonical field: `row.phone_number = phone`
is executed only when the processed value is non-empty. -/
def phoneUpdated (row : Row) (key : String) : Row :=
  if (phonePipeline ((lookupRow row key).getD "")).length > 0
  then setRow row "phone_number" (String.mk (phonePipeline ((lookupRow row key).getD "")))
  else row

/-- The mutation `normalisePhone` performs once a candidate key is found:
write the canonical field, then delete the variant key if non-canonical. -/
def phoneApply (row : Row) (key : String) : Row :=
  if key = "phone_number" then phoneUpdated row key
  else deleteRow (phoneUpdated row key) key

def normalisePhone (row : Row) : Row :=
  match phoneCands.find? (fun k => truthy row k) with
  | none => row
  | some key => phoneApply row key

/-! ## Full-name normalizer (`normaliseFullName`, server.js lines 154–162) -/

def nameCands : List String :=
  ["full_name", "fullname", "Full Name", "Full_Name", "full name", "FullName"]

/-- `row` after `row.full_name = String(row[key]).trim()`. -/
def nameUpdated (row : Row) (key : String) : Row :=
  setRow row "full_name" (String.mk (jsTrim ((lookupRow row key).getD "").data))

/-- The mutation `normaliseFullName` performs once a candidate key is
found: write the canonical field, then delete the variant if different. -/
def nameApply (row : Row) (key : String) : Row :=
  if key = "full_name" then nameUpdated row key
  else deleteRow (nameUpdated row key) key

def normaliseFullName (row : Row) : Row :=
  match nameCands.find? (fun k => truthy row k) with
  | none => row
  | some key => nameApply row key

/-! ## Association-list lemmas for the row model -/

@[simp]
theorem rowKeys_nil : rowKeys [] = [] := rfl

@[simp]
theorem rowKeys_cons (k v : String) (rest : Row) :
    rowKeys ((k, v) :: rest) = k :: rowKeys rest := rfl

theorem lookupRow_setRow_self (row : Row) (k v : String) :
    lookupRow (setRow row k v) k = some v := by
  induction row with
  | nil => simp [setRow, lookupRow]
  | cons p rest ih =>
      obtain ⟨k', v'⟩ := p
      by_cases h : k' = k <;> simp [setRow, lookupRow, h, ih]

theorem lookupRow_setRow_ne (row : Row) {k k' : String} (v : String) (h : k' ≠ k) :
    lookupRow (setRow row k v) k' = lookupRow row k' := by
  have h' : ¬ k = k' := fun hh => h hh.symm
  induction row with
  | nil => simp [setRow, lookupRow, h']
  | cons p rest ih =>
      obtain ⟨k₀, v₀⟩ := p
      by_cases h0 : k₀ = k
      · subst h0
        simp [setRow, lookupRow, h']
      · simp [setRow, lookupRow, h0, ih]

theorem setRow_lookup_eq (row : Row) {k v : String}
    (h : lookupRow row k = some v) : setRow row k v = row := by
  induction row with
  | nil => simp [lookupRow] at h
  | cons p rest ih =>
      obtain ⟨k₀, v₀⟩ := p
      by_cases h0 : k₀ = k
      · subst h0
        simp [lookupRow] at h
        simp [setRow, h]
      · simp [lookupRow, h0] at h
        simp [setRow, h0, ih h]

theorem lookupRow_deleteRow_ne (row : Row) {k k' : String} (h : k' ≠ k) :
    lookupRow (deleteRow row k) k' = lookupRow row k' := by
  have h' : ¬ k = k' := fun hh => h hh.symm
  induction row with
  | nil => simp [deleteRow]
  | cons p rest ih =>
      obtain ⟨k₀, v₀⟩ := p
      by_cases h0 : k₀ = k
      · subst h0
        simp [deleteRow, lookupRow, h']
      · simp [deleteRow, lookupRow, h0, ih]

theorem lookupRow_eq_none_of_not_mem {row : Row} {k : String}
    (h : k ∉ rowKeys row) : lookupRow row k = none := by
  induction row with
  | nil => simp [lookupRow]
  | cons p rest ih =>
      obtain ⟨k₀, v₀⟩ := p
      rw [rowKeys_cons, List.mem_cons, not_or] at h
      have h0 : ¬ k₀ = k := fun hh => h.1 hh.symm
      simp [lookupRow, h0, ih h.2]

theorem lookupRow_deleteRow_self (row : Row) (k : String)
    (h : (rowKeys row).Nodup) : lookupRow (deleteRow row k) k = none := by
  induction row with
  | nil => simp [deleteRow, lookupRow]
  | cons p rest ih =>
      obtain ⟨k₀, v₀⟩ := p
      rw [rowKeys_cons, List.nodup_cons] at h
      by_cases h0 : k₀ = k
      · subst h0
        simp only [deleteRow, if_pos rfl]
        exact lookupRow_eq_none_of_not_mem h.1
      · simp [deleteRow, lookupRow, h0, ih h.2]

theorem rowKeys_deleteRow_sublist (row : Row) (k : String) :
    List.Sublist (rowKeys (deleteRow row k)) (rowKeys row) := by
  induction row with
  | nil => simp [deleteRow]
  | cons p rest ih =>
      obtain ⟨k₀, v₀⟩ := p
      by_cases h0 : k₀ = k
      · simp [deleteRow, h0]
      · simpa [deleteRow, h0] using ih.cons₂ k₀

theorem mem_rowKeys_setRow {row : Row} {k k' : String} (v : String) :
    k' ∈ rowKeys (setRow row k v) ↔ k' ∈ rowKeys row ∨ k' = k := by
  induction row with
  | nil => simp [setRow]
  | cons p rest ih =>
      obtain ⟨k₀, v₀⟩ := p
      by_cases h0 : k₀ = k
      · subst h0
        simp [setRow]
        tauto
      · simp [setRow, h0, ih]
        tauto

theorem nodup_rowKeys_setRow (row : Row) (k v : String)
    (h : (rowKeys row).Nodup) : (rowKeys (setRow row k v)).Nodup := by
  induction row with
  | nil => simp [setRow]
  | cons p rest ih =>
      obtain ⟨k₀, v₀⟩ := p
      rw [rowKeys_cons, List.nodup_cons] at h
      by_cases h0 : k₀ = k
      · subst h0
        simp [setRow]
        exact ⟨h.1, h.2⟩
      · simp only [setRow, if_neg h0, rowKeys_cons, List.nodup_cons]
        refine ⟨?_, ih h.2⟩
        intro hmem
        rcases (mem_rowKeys_setRow v).mp hmem with hm | hm
        · exact h.1 hm
        · exact h0 hm

theorem nodup_rowKeys_deleteRow (row : Row) (k : String)
    (h : (rowKeys row).Nodup) : (rowKeys (deleteRow row k)).Nodup :=
  h.sublist (rowKeys_deleteRow_sublist row k)

/-- First-match characterization of `List.find?`: if `a` is in the list,
satisfies the predicate, and every other element fails it, `find?` returns
`a`. -/
theorem find?_eq_some_of_unique {α : Type} (p : α → Bool) :
    ∀ (l : List α) (a : α), a ∈ l → p a = true →
      (∀ b ∈ l, b ≠ a → p b = false) → l.find? p = some a := by
  intro l
  induction l with
  | nil => simp
  | cons h t ih =>
      intro a ha hp hq
      by_cases hha : h = a
      · subst hha
        simp [List.find?_cons_of_pos _ hp]
      · have hcons : a ∈ t := by
          rcases List.mem_cons.mp ha with rfl | hm
          · exact absurd rfl hha
          · exact hm
        have hph : p h = false := hq h (List.mem_cons_self h t) hha
        rw [List.find?_cons_of_neg _ (by simp [hph])]
        exact ih a hcons hp fun b hb => hq b (List.mem_cons_of_mem h hb)

/-! ## Claim C1: country-code stripping order and the two concrete examples -/

/-- C1: phone normalization strips at most one country-code prefix, in the
order `033` (drop 3), else `33` (drop 2), else `213` (drop 3), else a bare
leading `1` (drop 1), first match winning with no further stripping; the
input `"0770555999"` matches no rule and normalizes to `"0770 555 999"`,
and the 9-digit input `"770555999"` gains a leading `0` and normalizes to
the same string. -/
theorem claimC1 :
    (∀ p : List Char, p.take 3 = ['0','3','3'] → stripCC p = p.drop 3) ∧
    (∀ p : List Char, p.take 3 ≠ ['0','3','3'] → p.take 2 = ['3','3'] →
      stripCC p = p.drop 2) ∧
    (∀ p : List Char, p.take 3 ≠ ['0','3','3'] → p.take 2 ≠ ['3','3'] →
      p.take 3 = ['2','1','3'] → stripCC p = p.drop 3) ∧
    (∀ p : List Char, p.take 3 ≠ ['0','3','3'] → p.take 2 ≠ ['3','3'] →
      p.take 3 ≠ ['2','1','3'] → p.take 1 = ['1'] → stripCC p = p.drop 1) ∧
    (∀ p : List Char, p.take 3 ≠ ['0','3','3'] → p.take 2 ≠ ['3','3'] →
      p.take 3 ≠ ['2','1','3'] → p.take 1 ≠ ['1'] → stripCC p = p) ∧
    normalisePhone [("phone_number", "0770555999")] =
      [("phone_number", "0770 555 999")] ∧
    normalisePhone [("phone_number", "770555999")] =
      [("phone_number", "0770 555 999")] := by
  refine ⟨?_, ?_, ?_, ?_, ?_, by decide, by decide⟩ <;>
    intro p <;> intros <;> simp [stripCC, *]

/-! ## Claim C4: idempotence of phone normalization -/

/-- Tag stripping is the identity on strings containing no `p`/`P`. -/
theorem stripPTag_eq_self {l : List Char}
    (h : ∀ c ∈ l, ¬(c = 'p' ∨ c = 'P')) : stripPTag l = l := by
  induction l using stripPTag.induct with
  | case1 => rfl
  | case2 c rest hp ih =>
      exact absurd hp (h c (by simp))
  | case3 c rest hp ih =>
      have heq : stripPTag (c :: ':' :: '+' :: rest) =
          c :: stripPTag (':' :: '+' :: rest) := by
        simp only [stripPTag, if_neg hp]
      rw [heq, ih (fun x hx => h x (List.mem_cons_of_mem c hx))]
  | case4 c rest hne hp ih =>
      exact absurd hp (h c (by simp))
  | case5 c rest hne hp ih =>
      have heq : stripPTag (c :: ':' :: rest) = c :: stripPTag (':' :: rest) := by
        simp only [stripPTag, if_neg hp]
      rw [heq, ih (fun x hx => h x (List.mem_cons_of_mem c hx))]
  | case6 c rest hn1 hn2 ih =>
      have heq : stripPTag (c :: rest) = c :: stripPTag rest := by
        simp only [stripPTag]
      rw [heq, ih (fun x hx => h x (List.mem_cons_of_mem c hx))]

/-- Every character of a formatted number is a digit of it or a space. -/
theorem mem_fmtPhone {c : Char} {d : List Char} (h : c ∈ fmtPhone d) :
    c ∈ d ∨ c = ' ' := by
  simp only [fmtPhone, List.mem_append, List.mem_singleton] at h
  rcases h with ((((h | h) | h) | h) | h)
  · exact Or.inl (List.mem_of_mem_take h)
  · exact Or.inr h
  · exact Or.inl (List.mem_of_mem_drop (List.mem_of_mem_take h))
  · exact Or.inr h
  · exact Or.inl (List.mem_of_mem_drop h)

theorem dropWhile_eq_self_of_none {α : Type} (p : α → Bool) (l : List α)
    (h : ∀ c ∈ l, p c = false) : l.dropWhile p = l := by
  cases l with
  | nil => rfl
  | cons c t => simp [List.dropWhile_cons, h c (List.mem_cons_self c t)]

theorem jsTrim_eq_self {l : List Char}
    (h : ∀ c ∈ l, isJsSpace c = false) : jsTrim l = l := by
  unfold jsTrim
  rw [dropWhile_eq_self_of_none _ _ h,
      dropWhile_eq_self_of_none _ _ (fun c hc => h c (List.mem_reverse.mp hc)),
      List.reverse_reverse]

theorem digit_not_jsSpace {c : Char} (h : c.isDigit = true) :
    isJsSpace c = false := by
  have hall : ∀ x ∈ jsSpaceChars, x.isDigit = false := by decide
  by_contra hcon
  have hsp : isJsSpace c = true := by
    cases hx : isJsSpace c
    · exact absurd hx hcon
    · rfl
  have hmem : c ∈ jsSpaceChars := of_decide_eq_true hsp
  rw [hall c hmem] at h
  exact Bool.false_ne_true h

/-- Digit extraction undoes the `XXXX XXX XXX` formatting. -/
theorem filter_digits_fmtPhone {d : List Char}
    (hd : ∀ c ∈ d, c.isDigit = true) :
    (fmtPhone d).filter Char.isDigit = d := by
  have ht4 : (d.take 4).filter Char.isDigit = d.take 4 :=
    List.filter_eq_self.mpr fun c hc => hd c (List.mem_of_mem_take hc)
  have ht3 : ((d.drop 4).take 3).filter Char.isDigit = (d.drop 4).take 3 :=
    List.filter_eq_self.mpr fun c hc =>
      hd c (List.mem_of_mem_drop (List.mem_of_mem_take hc))
  have ht7 : (d.drop 7).filter Char.isDigit = d.drop 7 :=
    List.filter_eq_self.mpr fun c hc => hd c (List.mem_of_mem_drop hc)
  have hsp : (' ' : Char).isDigit = false := by decide
  calc (fmtPhone d).filter Char.isDigit
      = d.take 4 ++ ((d.drop 4).take 3 ++ d.drop 7) := by
        simp [fmtPhone, List.filter_append, ht4, ht3, ht7, hsp]
    _ = (d.take 4 ++ (d.drop 4).take 3) ++ d.drop 7 := by
        rw [List.append_assoc]
    _ = d.take 7 ++ d.drop 7 := by
        rw [← List.take_add]
    _ = d := List.take_append_drop 7 d

/-- C4 counterexample: the claim fails on the code. The input digits
`2131234567890` normalize (strip `213`, format) to `"1234 567 890"`, but a
second run strips the now-leading `1` and produces `"0234 567 890"`, so
re-running the normalizer on its own canonical output changes the row. -/
theorem claimC4_cex :
    normalisePhone (normalisePhone [("phone_number", "2131234567890")]) ≠
      normalisePhone [("phone_number", "2131234567890")] := by decide

/-- C4 (amended): phone normalization is idempotent on a row whose
`phone_number` field holds a formatted 10-digit number whose digit string
matches none of the country-code prefix rules (`033`, `33`, `213`,
leading `1`) — e.g. `"0770 555 999"`. (Unamended, the claim is false:
a previous run can output a formatted number whose digits re-trigger the
prefix stripping, see the counterexample.) -/
theorem claimC4 (row : Row) (d : List Char)
    (hlen : d.length = 10) (hdig : ∀ c ∈ d, c.isDigit = true)
    (h1 : d.take 3 ≠ ['0','3','3']) (h2 : d.take 2 ≠ ['3','3'])
    (h3 : d.take 3 ≠ ['2','1','3']) (h4 : d.take 1 ≠ ['1'])
    (hpn : lookupRow row "phone_number" = some (String.mk (fmtPhone d))) :
    normalisePhone row = row := by
  have hne : fmtPhone d ≠ [] := by simp [fmtPhone]
  have hmkne : String.mk (fmtPhone d) ≠ "" := by
    intro hcon
    exact hne (congrArg String.data hcon)
  have htr : truthy row "phone_number" = true := by
    simp [truthy, hpn, hmkne]
  have hfind : phoneCands.find? (fun k => truthy row k) = some "phone_number" := by
    simp only [phoneCands]
    rw [List.find?_cons_of_pos _ htr]
  have hnop : ∀ c ∈ fmtPhone d, ¬(c = 'p' ∨ c = 'P') := by
    intro c hc
    rcases mem_fmtPhone hc with hm | rfl
    · have := hdig c hm
      rintro (rfl | rfl) <;> simp [Char.isDigit] at this
    · rintro (h | h) <;> exact absurd h (by decide)
  have hpipe : phonePipeline (String.mk (fmtPhone d)) = fmtPhone d := by
    unfold phonePipeline
    have hdata : (String.mk (fmtPhone d)).data = fmtPhone d := rfl
    rw [hdata, stripPTag_eq_self hnop, filter_digits_fmtPhone hdig,
        jsTrim_eq_self (fun c hc => digit_not_jsSpace (hdig c hc))]
    have hstrip : stripCC d = d := by
      simp only [stripCC, if_neg h1, if_neg h2, if_neg h3, if_neg h4]
    have hpad : phonePadStep d = d := by
      unfold phonePadStep
      rw [if_neg]
      simp [hlen]
    have hfmt : phoneFmtStep d = fmtPhone d := by
      unfold phoneFmtStep
      rw [if_pos hlen]
    rw [hstrip, hpad, hfmt]
  have hfinal : phoneApply row "phone_number" = row := by
    unfold phoneApply
    rw [if_pos rfl]
    unfold phoneUpdated
    rw [hpn]
    simp only [Option.getD_some, hpipe]
    rw [if_pos (List.length_pos.mpr hne)]
    exact setRow_lookup_eq row hpn
  simp only [normalisePhone, hfind, hfinal]

/-- Witness for C4: the canonical formatted number `"0770 555 999"` is a
fixed point of the phone normalizer. -/
theorem claimC4_witness :
    normalisePhone [("phone_number", "0770 555 999")] =
      [("phone_number", "0770 555 999")] :=
  claimC4 [("phone_number", "0770 555 999")] ("0770555999".data) (by decide)
    (by decide) (by decide) (by decide) (by decide) (by decide) (by decide)

/-- Witness for C1: each stripping branch exercised at a concrete digit
string. -/
theorem claimC1_witness :
    stripCC ['0','3','3','7'] = ['7'] ∧
    stripCC ['3','3','7','1'] = ['7','1'] ∧
    stripCC ['2','1','3','9'] = ['9'] ∧
    stripCC ['1','5','5'] = ['5','5'] ∧
    stripCC ['0','7','7','0'] = ['0','7','7','0'] :=
  ⟨claimC1.1 _ (by decide),
   claimC1.2.1 _ (by decide) (by decide),
   claimC1.2.2.1 _ (by decide) (by decide) (by decide),
   claimC1.2.2.2.1 _ (by decide) (by decide) (by decide) (by decide),
   claimC1.2.2.2.2.1 _ (by decide) (by decide) (by decide) (by decide)⟩

/-! ## Claim C2: consolidation of phone / full-name variant fields -/

theorem lookupRow_phoneUpdated_other {row : Row} {key k' : String}
    (h : k' ≠ "phone_number") :
    lookupRow (phoneUpdated row key) k' = lookupRow row k' := by
  unfold phoneUpdated
  split
  · exact lookupRow_setRow_ne row _ h
  · rfl

theorem lookupRow_phoneApply_other {row : Row} {key k' : String}
    (h1 : k' ≠ "phone_number") (h2 : k' ≠ key) :
    lookupRow (phoneApply row key) k' = lookupRow row k' := by
  unfold phoneApply
  split
  · exact lookupRow_phoneUpdated_other h1
  · rw [lookupRow_deleteRow_ne _ h2, lookupRow_phoneUpdated_other h1]

theorem normalisePhone_none {row : Row}
    (h : phoneCands.find? (fun k => truthy row k) = none) :
    normalisePhone row = row := by
  simp only [normalisePhone, h]

theorem normalisePhone_some {row : Row} {key : String}
    (h : phoneCands.find? (fun k => truthy row k) = some key) :
    normalisePhone row = phoneApply row key := by
  simp only [normalisePhone, h]

theorem normaliseFullName_none {row : Row}
    (h : nameCands.find? (fun k => truthy row k) = none) :
    normaliseFullName row = row := by
  simp only [normaliseFullName, h]

theorem normaliseFullName_some {row : Row} {key : String}
    (h : nameCands.find? (fun k => truthy row k) = some key) :
    normaliseFullName row = nameApply row key := by
  simp only [normaliseFullName, h]

theorem lookupRow_normalisePhone_other {row : Row} {k' : String}
    (h : k' ∉ phoneCands) :
    lookupRow (normalisePhone row) k' = lookupRow row k' := by
  cases hf : phoneCands.find? (fun k => truthy row k) with
  | none => rw [normalisePhone_none hf]
  | some key =>
      have hkey : key ∈ phoneCands := List.mem_of_find?_eq_some hf
      rw [normalisePhone_some hf]
      exact lookupRow_phoneApply_other
        (fun h' => h (by rw [h']; decide))
        (fun h' => h (by rw [h']; exact hkey))

theorem truthy_normalisePhone_other {row : Row} {k' : String}
    (h : k' ∉ phoneCands) :
    truthy (normalisePhone row) k' = truthy row k' := by
  unfold truthy
  rw [lookupRow_normalisePhone_other h]

theorem nodup_rowKeys_phoneUpdated (row : Row) (key : String)
    (h : (rowKeys row).Nodup) : (rowKeys (phoneUpdated row key)).Nodup := by
  unfold phoneUpdated
  split
  · exact nodup_rowKeys_setRow _ _ _ h
  · exact h

theorem nodup_rowKeys_normalisePhone (row : Row)
    (h : (rowKeys row).Nodup) : (rowKeys (normalisePhone row)).Nodup := by
  cases hf : phoneCands.find? (fun k => truthy row k) with
  | none => rw [normalisePhone_none hf]; exact h
  | some key =>
      rw [normalisePhone_some hf]
      unfold phoneApply
      split
      · exact nodup_rowKeys_phoneUpdated row key h
      · exact nodup_rowKeys_deleteRow _ _ (nodup_rowKeys_phoneUpdated row key h)

theorem lookupRow_nameApply_other {row : Row} {key k' : String}
    (h1 : k' ≠ "full_name") (h2 : k' ≠ key) :
    lookupRow (nameApply row key) k' = lookupRow row k' := by
  unfold nameApply nameUpdated
  split
  · exact lookupRow_setRow_ne row _ h1
  · rw [lookupRow_deleteRow_ne _ h2, lookupRow_setRow_ne row _ h1]

theorem lookupRow_normaliseFullName_other {row : Row} {k' : String}
    (h : k' ∉ nameCands) :
    lookupRow (normaliseFullName row) k' = lookupRow row k' := by
  cases hf : nameCands.find? (fun k => truthy row k) with
  | none => rw [normaliseFullName_none hf]
  | some key =>
      have hkey : key ∈ nameCands := List.mem_of_find?_eq_some hf
      rw [normaliseFullName_some hf]
      exact lookupRow_nameApply_other
        (fun h' => h (by rw [h']; decide))
        (fun h' => h (by rw [h']; exact hkey))

/-- C2 counterexample: the claim fails on the code. In the row
`{phone: "abc", Phone: "0770555999"}` the first present non-empty variant
is `phone`, whose value has no digits, so no canonical `phone_number` is
written, `phone` is deleted — and the untouched later variant `Phone`
survives. So a phone variant was present and non-empty, yet afterwards
there is no `phone_number` field and another variant key remains. -/
theorem claimC2_cex :
    lookupRow (normaliseFullName (normalisePhone
        [("phone", "abc"), ("Phone", "0770555999")])) "phone_number" = none ∧
    lookupRow (normaliseFullName (normalisePhone
        [("phone", "abc"), ("Phone", "0770555999")])) "Phone" =
      some "0770555999" := by decide

/-- C2 (amended): the normalizers consolidate only the *first* present
non-empty variant. If the row has exactly one phone-variant key, the
phone pipeline's processed value for it is non-empty (some digits survive
the digit-strip and country-code prefix-strip — not the case for values
like `"abc"` or `"213"`, whose digits the prefix rules consume entirely),
and exactly one full-name-variant key with a non-empty value, then after
both normalizers `phone_number` holds the normalized phone, `full_name`
holds the trimmed name, and no non-canonical variant key of either
concept survives. (Unamended, the claim is false: later variant keys are
not deleted, and a value whose processed digits are empty deletes the
variant without writing `phone_number` — see the counterexample.) -/
theorem claimC2 (row : Row) (hnd : (rowKeys row).Nodup)
    (k : String) (hk : k ∈ phoneCands) (v : String)
    (hv : lookupRow row k = some v) (hvne : v ≠ "")
    (hothers : ∀ k' ∈ phoneCands, k' ≠ k → lookupRow row k' = none)
    (hdig : phonePipeline v ≠ [])
    (kn : String) (hkn : kn ∈ nameCands) (w : String)
    (hw : lookupRow row kn = some w) (hwne : w ≠ "")
    (hnothers : ∀ k' ∈ nameCands, k' ≠ kn → lookupRow row k' = none) :
    lookupRow (normaliseFullName (normalisePhone row)) "phone_number" =
      some (String.mk (phonePipeline v)) ∧
    (∀ k' ∈ phoneCands, k' ≠ "phone_number" →
      lookupRow (normaliseFullName (normalisePhone row)) k' = none) ∧
    lookupRow (normaliseFullName (normalisePhone row)) "full_name" =
      some (String.mk (jsTrim w.data)) ∧
    (∀ k' ∈ nameCands, k' ≠ "full_name" →
      lookupRow (normaliseFullName (normalisePhone row)) k' = none) := by
  have hdisj : ∀ x ∈ phoneCands, x ∉ nameCands := by decide
  have hdisj' : ∀ x ∈ nameCands, x ∉ phoneCands := by decide
  have hpnn : ("phone_number" : String) ∉ nameCands := by decide
  have hfnp : ("full_name" : String) ∉ phoneCands := by decide
  -- the phone normalizer finds exactly `k`
  have htrk : truthy row k = true := by simp [truthy, hv, hvne]
  have hfind : phoneCands.find? (fun x => truthy row x) = some k := by
    refine find?_eq_some_of_unique _ phoneCands k hk htrk ?_
    intro b hb hbk
    simp [truthy, hothers b hb hbk]
  have hstep : normalisePhone row = phoneApply row k := by
    simp only [normalisePhone, hfind]
  -- canonical phone field on the intermediate row
  have hupd : phoneUpdated row k = setRow row "phone_number" (String.mk (phonePipeline v)) := by
    unfold phoneUpdated
    rw [hv]
    simp only [Option.getD_some]
    rw [if_pos (List.length_pos.mpr hdig)]
  have hpn1 : lookupRow (normalisePhone row) "phone_number" =
      some (String.mk (phonePipeline v)) := by
    rw [hstep]
    unfold phoneApply
    split
    · rw [hupd, lookupRow_setRow_self]
    · next hne =>
        rw [lookupRow_deleteRow_ne _ (fun h => hne h.symm), hupd, lookupRow_setRow_self]
  have hothers1 : ∀ k' ∈ phoneCands, k' ≠ "phone_number" →
      lookupRow (normalisePhone row) k' = none := by
    intro k' hk' hk'pn
    rw [hstep]
    by_cases hk'k : k' = k
    · subst hk'k
      unfold phoneApply
      rw [if_neg (fun h => hk'pn h)]
      rw [hupd]
      exact lookupRow_deleteRow_self _ _ (nodup_rowKeys_setRow _ _ _ hnd)
    · rw [lookupRow_phoneApply_other hk'pn hk'k]
      exact hothers k' hk' hk'k
  -- the name normalizer then finds exactly `kn`
  have hw2 : lookupRow (normalisePhone row) kn = some w := by
    rw [lookupRow_normalisePhone_other (hdisj' kn hkn), hw]
  have htrkn : truthy (normalisePhone row) kn = true := by
    simp [truthy, hw2, hwne]
  have hfindn : nameCands.find? (fun x => truthy (normalisePhone row) x) = some kn := by
    refine find?_eq_some_of_unique _ nameCands kn hkn htrkn ?_
    intro b hb hbk
    have : lookupRow (normalisePhone row) b = none := by
      rw [lookupRow_normalisePhone_other (hdisj' b hb)]
      exact hnothers b hb hbk
    simp [truthy, this]
  have hstepn : normaliseFullName (normalisePhone row) = nameApply (normalisePhone row) kn := by
    simp only [normaliseFullName, hfindn]
  have hupdn : nameUpdated (normalisePhone row) kn =
      setRow (normalisePhone row) "full_name" (String.mk (jsTrim w.data)) := by
    unfold nameUpdated
    rw [hw2]
    simp only [Option.getD_some]
  refine ⟨?_, ?_, ?_, ?_⟩
  · rw [hstepn]
    rw [show lookupRow (nameApply (normalisePhone row) kn) "phone_number" =
        lookupRow (normalisePhone row) "phone_number" from
      lookupRow_nameApply_other (by decide) (fun h => hpnn (by rw [h]; exact hkn))]
    exact hpn1
  · intro k' hk' hk'pn
    have h1 : k' ≠ "full_name" := by
      intro h
      rw [h] at hk'
      exact hfnp hk'
    have h2 : k' ≠ kn := by
      intro h
      exact hdisj k' hk' (by rw [h]; exact hkn)
    rw [hstepn, lookupRow_nameApply_other h1 h2]
    exact hothers1 k' hk' hk'pn
  · rw [hstepn]
    unfold nameApply
    split
    · rw [hupdn, lookupRow_setRow_self]
    · next hne =>
        rw [lookupRow_deleteRow_ne _ (fun h => hne h.symm), hupdn, lookupRow_setRow_self]
  · intro k' hk' hk'fn
    rw [hstepn]
    by_cases hk'kn : k' = kn
    · subst hk'kn
      unfold nameApply
      rw [if_neg (fun h => hk'fn h)]
      rw [hupdn]
      exact lookupRow_deleteRow_self _ _
        (nodup_rowKeys_setRow _ _ _ (nodup_rowKeys_normalisePhone row hnd))
    · rw [lookupRow_nameApply_other hk'fn hk'kn]
      rw [lookupRow_normalisePhone_other (hdisj' k' hk')]
      exact hnothers k' hk' hk'kn

/-- Witness for C2: a row with one `Phone` variant and one `Full Name`
variant is consolidated into exactly `phone_number` and `full_name`. -/
theorem claimC2_witness :
    lookupRow (normaliseFullName (normalisePhone
      [("Phone", "0770555999"), ("Full Name", " John Doe ")])) "phone_number" =
        some (String.mk (phonePipeline "0770555999")) ∧
    (∀ k' ∈ phoneCands, k' ≠ "phone_number" →
      lookupRow (normaliseFullName (normalisePhone
        [("Phone", "0770555999"), ("Full Name", " John Doe ")])) k' = none) ∧
    lookupRow (normaliseFullName (normalisePhone
      [("Phone", "0770555999"), ("Full Name", " John Doe ")])) "full_name" =
        some (String.mk (jsTrim " John Doe ".data)) ∧
    (∀ k' ∈ nameCands, k' ≠ "full_name" →
      lookupRow (normaliseFullName (normalisePhone
        [("Phone", "0770555999"), ("Full Name", " John Doe ")])) k' = none) :=
  claimC2 [("Phone", "0770555999"), ("Full Name", " John Doe ")] (by decide)
    "Phone" (by decide) "0770555999" (by decide) (by decide)
    (by decide) (by decide)
    "Full Name" (by decide) " John Doe " (by decide) (by decide)
    (by decide)

/-! ## Text normalizer and product classifier
(`normalizeText` / `assignProductFromText`, server.js lines 167–247) -/

/-- `replace(/[^\w\s]/g, ' ')`: punctuation folded to spaces. -/
def replaceNonWord (l : List Char) : List Char :=
  l.map (fun c => if isWordChar c || isJsSpace c then c else ' ')

/-- `replace(/[̀-ͯ]/g, '')`: combining marks removed. -/
def removeMarks (l : List Char) : List Char :=
  l.filter (fun c => !isCombiningMark c)

def normalizeTextL (l : List Char) : List Char :=
  jsTrim (collapseWs (replaceNonWord (removeMarks (nfdL (l.map jsToLower)))))

def normalizeText (s : String) : String :=
  if s = "" then "" else String.mk (normalizeTextL s.data)

/-- `join(' ')` of a list of strings. -/
def joinSp : List (List Char) → List Char
  | [] => []
  | [l] => l
  | l :: ls => l ++ ' ' :: joinSp ls

/-- The classifier's search string: every non-empty row value, normalized,
joined with spaces. -/
def allTextS (row : Row) : List Char :=
  joinSp (((row.map Prod.snd).filter (fun v => v ≠ "")).map
    (fun v => (normalizeText v).data))

structure PatGroup where
  keywords : List String
  product : String
  company : String
deriving DecidableEq

/-- The first seven keyword-rule groups of `assignProductFromText`. -/
def patternsMain : List PatGroup :=
  [⟨["dmb", "digital marketing", "marketing digital"],
    "insfag_crm_sale.product_template_mba_dmk", "base.main_company"⟩,
   ⟨["marketing"],
    "insfag_crm_sale.product_template_ms_mrk", "base.main_company"⟩,
   ⟨["rh", "ressources humaines", "resources humaines"],
    "insfag_crm_sale.product_template_ms_rh", "base.main_company"⟩,
   ⟨["finance", "financier"],
    "insfag_crm_sale.product_template_ms_fin", "base.main_company"⟩,
   ⟨["master assurances", "mma", "assurance"],
    "insfag_crm_sale.product_template_ms_mas", "base.main_company"⟩,
   ⟨["agent general d assurance", "agent general dassurance", "aga"],
    "insfag_crm_sale.product_template_bac_aga", "base.main_company"⟩,
   ⟨["digital"],
    "insfag_crm_sale.product_template_mba_dmk", "base.main_company"⟩]

/-- The eighth and last keyword-rule group. -/
def lastGroup : PatGroup :=
  ⟨["Global", "management opérationnel", "GMBA"],
   "insfag_crm_sale.product_template_mba_dmk", "base.main_company"⟩

def patterns : List PatGroup := patternsMain ++ [lastGroup]

/-- A group fires when any of its keywords is a substring of the search
string. -/
def groupHit (t : List Char) (g : PatGroup) : Bool :=
  g.keywords.any (fun kw => jsIncludes t kw.data)

/-- Effect of a matched group: set `product cible`, then set `company`
only if it is not already set. -/
def applyGroup (row : Row) (g : PatGroup) : Row :=
  if truthy (setRow row "product cible" g.product) "company"
  then setRow row "product cible" g.product
  else setRow (setRow row "product cible" g.product) "company" g.company

def assignWith (ps : List PatGroup) (row : Row) : Row :=
  if truthy row "product cible" then row
  else
    match ps.find? (groupHit (allTextS row)) with
    | some g => applyGroup row g
    | none => row

def assignProductFromText : Row → Row := assignWith patterns

/-- The classifier with its final keyword group removed (for C10). -/
def assignProductDropLast : Row → Row := assignWith patternsMain

/-- The full normalizer chain of server.js (`normaliseRow`). -/
def normaliseRow (row : Row) : Row :=
  assignProductFromText (normaliseFullName (normalisePhone row))

/-! ## Claim C3: classifier behaviour -/

/-- C3: the classifier does nothing when `product cible` is already
truthy; otherwise the first rule group, in list order, with a keyword
occurring in the normalized search string sets `product cible` and sets
`company` only if unset, and evaluation stops: with text matching both
group 1 (`dmb`) and group 2 (`marketing`), group 1 wins. -/
theorem claimC3 :
    (∀ row : Row, truthy row "product cible" = true →
      assignProductFromText row = row) ∧
    (∀ row : Row, truthy row "product cible" = false →
      patterns.find? (groupHit (allTextS row)) = none →
      assignProductFromText row = row) ∧
    (∀ row : Row, ∀ g : PatGroup, truthy row "product cible" = false →
      patterns.find? (groupHit (allTextS row)) = some g →
      assignProductFromText row = applyGroup row g) ∧
    assignProductFromText [("note", "dmb marketing")] =
      [("note", "dmb marketing"),
       ("product cible", "insfag_crm_sale.product_template_mba_dmk"),
       ("company", "base.main_company")] ∧
    assignProductFromText [("product cible", "X"), ("c", "marketing")] =
      [("product cible", "X"), ("c", "marketing")] ∧
    assignProductFromText [("company", "co"), ("c", "marketing")] =
      [("company", "co"), ("c", "marketing"),
       ("product cible", "insfag_crm_sale.product_template_ms_mrk")] := by
  refine ⟨?_, ?_, ?_, by decide, by decide, by decide⟩
  · intro row h
    unfold assignProductFromText assignWith
    rw [if_pos h]
  · intro row h hf
    unfold assignProductFromText assignWith
    rw [if_neg (by simp [h]), hf]
  · intro row g h hf
    unfold assignProductFromText assignWith
    rw [if_neg (by simp [h]), hf]

/-- Witness for C3: the skip branch, the no-match branch and the match
branch each exercised on a concrete row. -/
theorem claimC3_witness :
    assignProductFromText [("product cible", "keep")] = [("product cible", "keep")] ∧
    assignProductFromText [("x", "nothing relevant")] = [("x", "nothing relevant")] ∧
    assignProductFromText [("x", "la finance")] =
      applyGroup [("x", "la finance")]
        ⟨["finance", "financier"],
         "insfag_crm_sale.product_template_ms_fin", "base.main_company"⟩ :=
  ⟨claimC3.1 _ (by decide),
   claimC3.2.1 _ (by decide) (by decide),
   claimC3.2.2.1 _ _ (by decide) (by decide)⟩

/-! ## Claim C10: the final keyword group is dead code -/

theorem mem_of_lookup_char {β : Type} {a : Char} {ps : List (Char × β)} {b : β}
    (h : List.lookup a ps = some b) : (a, b) ∈ ps := by
  induction ps with
  | nil => simp [List.lookup] at h
  | cons p rest ih =>
      obtain ⟨k, v⟩ := p
      rw [List.lookup] at h
      by_cases hk : (a == k) = true
      · rw [hk] at h
        simp at h
        subst h
        have hak : a = k := eq_of_beq hk
        subst hak
        exact List.mem_cons_self _ _
      · rw [Bool.eq_false_iff.mpr hk] at h
        exact List.mem_cons_of_mem _ (ih h)

/-- JS `toLowerCase` never produces an ASCII capital. -/
theorem asciiUpper_jsToLower (c : Char) : asciiUpper (jsToLower c) = false := by
  unfold jsToLower
  cases hl : List.lookup c caseTable with
  | some l =>
      have hmem : (c, l) ∈ caseTable := mem_of_lookup_char hl
      have hall : ∀ p ∈ caseTable, asciiUpper p.2 = false := by decide
      exact hall _ hmem
  | none =>
      cases hx : asciiUpper c
      · rfl
      · exfalso
        have hmem : c ∈ upperChars := of_decide_eq_true hx
        have hs : ∀ x ∈ upperChars, (List.lookup x caseTable).isSome = true := by
          decide
        have := hs c hmem
        rw [hl] at this
        simp at this

/-- The NFD table never produces an ASCII capital from a non-capital. -/
theorem asciiUpper_nfdChar {c d : Char} (hc : asciiUpper c = false)
    (hd : d ∈ nfdChar c) : asciiUpper d = false := by
  unfold nfdChar at hd
  cases hl : List.lookup c nfdTable with
  | some l =>
      rw [hl] at hd
      have hmem : (c, l) ∈ nfdTable := mem_of_lookup_char hl
      have hall : ∀ p ∈ nfdTable, ∀ x ∈ p.2, asciiUpper x = false := by decide
      exact hall _ hmem d hd
  | none =>
      rw [hl] at hd
      simp at hd
      rw [hd]
      exact hc

/-- Membership in a collapsed string: a non-space original character or
the single space standing for a whitespace run. -/
theorem mem_collapseWs {c : Char} : ∀ (l : List Char), c ∈ collapseWs l →
    (c ∈ l ∧ isJsSpace c = false) ∨ c = ' '
  | [] => by simp [collapseWs]
  | [x] => by
      intro h
      unfold collapseWs at h
      split at h
      · simp at h
        exact Or.inr h
      · next hx =>
          simp at h
          subst h
          exact Or.inl ⟨List.mem_singleton.mpr rfl, by simpa using hx⟩
  | x :: d :: rest => by
      intro h
      unfold collapseWs at h
      split at h
      · rcases mem_collapseWs (d :: rest) h with ⟨hm, hs⟩ | hsp
        · exact Or.inl ⟨List.mem_cons_of_mem x hm, hs⟩
        · exact Or.inr hsp
      · rcases List.mem_cons.mp h with hc | hm
        · by_cases hx : isJsSpace x = true
          · rw [hc, if_pos hx]
            exact Or.inr rfl
          · rw [hc, if_neg hx]
            exact Or.inl ⟨List.mem_cons_self _ _, by simpa using hx⟩
        · rcases mem_collapseWs (d :: rest) hm with ⟨hm2, hs⟩ | hsp
          · exact Or.inl ⟨List.mem_cons_of_mem x hm2, hs⟩
          · exact Or.inr hsp

theorem mem_jsTrim {c : Char} {l : List Char} (h : c ∈ jsTrim l) : c ∈ l := by
  unfold jsTrim at h
  rw [List.mem_reverse] at h
  have h1 := (List.dropWhile_sublist _).subset h
  rw [List.mem_reverse] at h1
  exact (List.dropWhile_sublist _).subset h1

theorem mem_joinSp {c : Char} : ∀ (ls : List (List Char)), c ∈ joinSp ls →
    (∃ l ∈ ls, c ∈ l) ∨ c = ' '
  | [] => by simp [joinSp]
  | [l] => by
      intro h
      exact Or.inl ⟨l, List.mem_singleton.mpr rfl, h⟩
  | l :: l2 :: rest => by
      intro h
      have heq : joinSp (l :: l2 :: rest) = l ++ ' ' :: joinSp (l2 :: rest) := rfl
      rw [heq, List.mem_append] at h
      rcases h with h | h
      · exact Or.inl ⟨l, List.mem_cons_self _ _, h⟩
      · rcases List.mem_cons.mp h with h | h
        · exact Or.inr h
        · rcases mem_joinSp (l2 :: rest) h with ⟨l3, hl3, hc3⟩ | hsp
          · exact Or.inl ⟨l3, List.mem_cons_of_mem _ hl3, hc3⟩
          · exact Or.inr hsp

/-- Characters of a normalized text are lowercase word characters or
single spaces. -/
theorem normalizeTextL_char_inv (s : List Char) :
    ∀ c ∈ normalizeTextL s,
      (isWordChar c = true ∧ asciiUpper c = false) ∨ c = ' ' := by
  intro c hc
  have hnu : ∀ x ∈ replaceNonWord (removeMarks (nfdL (s.map jsToLower))),
      asciiUpper x = false := by
    intro x hx
    unfold replaceNonWord at hx
    rcases List.mem_map.mp hx with ⟨a, ha, hxa⟩
    have hna : asciiUpper a = false := by
      have ham : a ∈ nfdL (s.map jsToLower) := List.mem_of_mem_filter ha
      unfold nfdL at ham
      rcases List.mem_flatten.mp ham with ⟨l2, hl2, hal2⟩
      rcases List.mem_map.mp hl2 with ⟨b, hb, hbl2⟩
      rcases List.mem_map.mp hb with ⟨b0, _, hb0⟩
      have hbu : asciiUpper b = false := by
        rw [← hb0]
        exact asciiUpper_jsToLower b0
      rw [← hbl2] at hal2
      exact asciiUpper_nfdChar hbu hal2
    rw [← hxa]
    by_cases hcase : (isWordChar a || isJsSpace a) = true
    · rw [if_pos hcase]
      exact hna
    · rw [if_neg hcase]
      decide
  unfold normalizeTextL at hc
  have hc1 := mem_jsTrim hc
  rcases mem_collapseWs _ hc1 with ⟨hm, hs⟩ | hsp
  · left
    refine ⟨?_, hnu c hm⟩
    unfold replaceNonWord at hm
    rcases List.mem_map.mp hm with ⟨a, _, hca⟩
    by_cases hcase : (isWordChar a || isJsSpace a) = true
    · rw [if_pos hcase] at hca
      subst hca
      rcases Bool.or_eq_true_iff.mp hcase with hw | hsp2
      · exact hw
      · rw [hsp2] at hs
        exact absurd hs (by simp)
    · rw [if_neg hcase] at hca
      subst hca
      exact absurd hs (by decide)
  · right
    exact hsp

/-- Characters of the classifier search string obey the same invariant. -/
theorem allTextS_char_inv (row : Row) :
    ∀ c ∈ allTextS row,
      (isWordChar c = true ∧ asciiUpper c = false) ∨ c = ' ' := by
  intro c hc
  unfold allTextS at hc
  rcases mem_joinSp _ hc with ⟨l, hl, hcl⟩ | hsp
  · rcases List.mem_map.mp hl with ⟨v, _, hvl⟩
    rw [← hvl] at hcl
    unfold normalizeText at hcl
    split at hcl
    · simp at hcl
    · exact normalizeTextL_char_inv v.data c hcl
  · exact Or.inr hsp

/-- `includes` fails when the needle has a character the haystack lacks. -/
theorem jsIncludes_eq_false_of (c : Char) {hay : List Char} (nd : List Char)
    (hc : c ∈ nd) (hn : c ∉ hay) : jsIncludes hay nd = false := by
  induction hay with
  | nil =>
      unfold jsIncludes
      cases nd with
      | nil => simp at hc
      | cons a t => simp [List.isEmpty]
  | cons a t ih =>
      unfold jsIncludes
      have hp : nd.isPrefixOf (a :: t) = false := by
        cases hx : nd.isPrefixOf (a :: t)
        · rfl
        · exact absurd ((List.isPrefixOf_iff_prefix.mp hx).subset hc) hn
      rw [hp]
      simp only [Bool.false_or]
      exact ih (fun h => hn (List.mem_cons_of_mem a h))

theorem find?_append_of_none {α : Type} (p : α → Bool) (l₁ l₂ : List α)
    (h : l₂.find? p = none) : (l₁ ++ l₂).find? p = l₁.find? p := by
  induction l₁ with
  | nil => simpa using h
  | cons a t ih =>
      by_cases hp : p a = true
      · rw [List.cons_append, List.find?_cons_of_pos _ hp,
            List.find?_cons_of_pos _ hp]
      · rw [List.cons_append, List.find?_cons_of_neg _ hp,
            List.find?_cons_of_neg _ hp, ih]

/-- C10: the final keyword group (`Global`, `management opérationnel`,
`GMBA`) can never fire — the search string is lowercased and
accent-stripped, while each of these keywords contains an ASCII capital
or an accented letter — so the classifier is extensionally equal to the
same classifier with that group removed. -/
theorem claimC10 (row : Row) :
    assignProductFromText row = assignProductDropLast row := by
  unfold assignProductFromText assignProductDropLast assignWith
  by_cases h : truthy row "product cible" = true
  · rw [if_pos h, if_pos h]
  · rw [if_neg h, if_neg h]
    have hG : 'G' ∉ allTextS row := by
      intro hmem
      rcases allTextS_char_inv row 'G' hmem with ⟨_, hu⟩ | hsp
      · exact absurd hu (by decide)
      · exact absurd hsp (by decide)
    have hE : 'é' ∉ allTextS row := by
      intro hmem
      rcases allTextS_char_inv row _ hmem with ⟨hw, _⟩ | hsp
      · exact absurd hw (by decide)
      · exact absurd hsp (by decide)
    have k1 : jsIncludes (allTextS row) "Global".data = false :=
      jsIncludes_eq_false_of 'G' _ (by decide) hG
    have k2 : jsIncludes (allTextS row) "management opérationnel".data = false :=
      jsIncludes_eq_false_of 'é' _ (by decide) hE
    have k3 : jsIncludes (allTextS row) "GMBA".data = false :=
      jsIncludes_eq_false_of 'G' _ (by decide) hG
    have hlast : [lastGroup].find? (groupHit (allTextS row)) = none := by
      simp [List.find?, groupHit, lastGroup, k1, k2, k3]
    rw [show patterns = patternsMain ++ [lastGroup] from rfl,
        find?_append_of_none _ _ _ hlast]

/-! ## Compare & Clean (server.js lines 259–334) -/

def emailCands : List String :=
  ["email", "Email", "EMAIL", "email_address", "Email Address", "mail", "Mail"]

/-- `row.email || row.Email || ...`: value of the first present, non-empty
email variant field. -/
def extractEmail (row : Row) : Option String :=
  (emailCands.find? (fun k => truthy row k)).map (fun k => (lookupRow row k).getD "")

/-- `email.toLowerCase().trim()`. -/
def emailKey (e : String) : String := String.mk (jsTrim (e.data.map jsToLower))

/-- The set of lowercased, trimmed, `@`-containing emails of the older
file's rows (a duplicate-free list is not needed: only membership is). -/
def olderEmailList (rows : List Row) : List String :=
  rows.filterMap (fun r =>
    match extractEmail r with
    | some e => if jsIncludes e.data "@".data then some (emailKey e) else none
    | none => none)

/-- Drop test for a newer-file row: email truthy and key in the set. -/
def dropEmail (set : List String) (r : Row) : Bool :=
  match extractEmail r with
  | some e => set.contains (emailKey e)
  | none => false

def cleanRows (rows : List Row) (set : List String) : List Row :=
  rows.filter (fun r => !dropEmail set r)

/-! ### Filename dates (`extractDateFromFilename`, `determineNewerFile`) -/

def digitVal (c : Char) : Nat := c.toNat - '0'.toNat

/-- The optional `(?:_(\d{4}))?` year group, greedy. -/
def yearAt : List Char → Option Nat
  | '_' :: y1 :: y2 :: y3 :: y4 :: _ =>
      if y1.isDigit ∧ y2.isDigit ∧ y3.isDigit ∧ y4.isDigit then
        some (1000 * digitVal y1 + 100 * digitVal y2 + 10 * digitVal y3 + digitVal y4)
      else none
  | _ => none

/-- `(\d{2})_(\d{2})` anchored at the current position. -/
def matchDateAt : List Char → Option (Nat × Nat × Option Nat)
  | c1 :: c2 :: c3 :: c4 :: c5 :: rest =>
      if c1.isDigit ∧ c2.isDigit ∧ c3 = '_' ∧ c4.isDigit ∧ c5.isDigit then
        some (10 * digitVal c1 + digitVal c2,
              10 * digitVal c4 + digitVal c5, yearAt rest)
      else none
  | _ => none

/-- Leftmost match of `(\d{2})_(\d{2})(?:_(\d{4}))?`. -/
def findDate : List Char → Option (Nat × Nat × Option Nat)
  | [] => none
  | c :: rest =>
      match matchDateAt (c :: rest) with
      | some r => some r
      | none => findDate rest

def extractDateFromFilename (fn : String) : Option (Nat × Nat × Option Nat) :=
  findDate fn.data

/-- Julian day number of a civil date (months 1–12; day is linear, so
out-of-range days carry over exactly as JS `Date` does). -/
def julianDay (y m d : Int) : Int :=
  d + (153 * (m + 12 * ((14 - m).fdiv 12) - 3) + 2).fdiv 5
    + 365 * (y + 4800 - (14 - m).fdiv 12)
    + (y + 4800 - (14 - m).fdiv 12).fdiv 4
    - (y + 4800 - (14 - m).fdiv 12).fdiv 100
    + (y + 4800 - (14 - m).fdiv 12).fdiv 400 - 32045

/-- Value of `new Date(y, monthIdx, day)` in days: the month index is
normalized into the year with floor semantics, as JS does. -/
def jsDateValue (y : Nat) (monthIdx : Int) (day : Nat) : Int :=
  julianDay ((y : Int) + monthIdx.fdiv 12) (monthIdx.emod 12 + 1) (day : Int)

/-- Value of a parsed `(dd, mm, yyyy?)` triple; an absent year defaults to
the current year (`new Date().getFullYear()`). -/
def dateValue (curYear : Nat) (t : Nat × Nat × Option Nat) : Int :=
  jsDateValue (t.2.2.getD curYear) ((t.2.1 : Int) - 1) t.1

/-- `determineNewerFile`: the first file wins unless both dates parse and
the second is strictly later. -/
def determineNewerIsF1 (curYear : Nat) (f1 f2 : String) : Bool :=
  match extractDateFromFilename f1, extractDateFromFilename f2 with
  | some t1, some t2 => dateValue curYear t1 > dateValue curYear t2
  | _, _ => true

structure UFile where
  originalname : String
  sheets : List (List Row)
deriving DecidableEq

def flattenSheets (f : UFile) : List Row := f.sheets.flatten

def newerOf (curYear : Nat) (f1 f2 : UFile) : UFile :=
  if determineNewerIsF1 curYear f1.originalname f2.originalname then f1 else f2

def olderOf (curYear : Nat) (f1 f2 : UFile) : UFile :=
  if determineNewerIsF1 curYear f1.originalname f2.originalname then f2 else f1

/-! ### Output filename (`base.replace(/\.(xlsx?|csv)$/i, '')`) -/

/-- Split off a recognized extension (`.xls`, `.xlsx`, `.csv`,
case-insensitive, anchored at the end), returning the base and the
original-case extension when present. -/
def extSplitL (cs : List Char) : List Char × Option (List Char) :=
  if (cs.reverse.take 5).map jsToLower = ['x','s','l','x','.'] then
    ((cs.reverse.drop 5).reverse, some ((cs.reverse.take 5).reverse))
  else if (cs.reverse.take 4).map jsToLower = ['s','l','x','.'] then
    ((cs.reverse.drop 4).reverse, some ((cs.reverse.take 4).reverse))
  else if (cs.reverse.take 4).map jsToLower = ['v','s','c','.'] then
    ((cs.reverse.drop 4).reverse, some ((cs.reverse.take 4).reverse))
  else (cs, none)

def stripExtBase (s : String) : String := String.mk (extSplitL s.data).1

def extOf (s : String) : Option String := (extSplitL s.data).2.map String.mk

/-- Compare & Clean output filename: `<base>_clean<ext>`, defaulting the
extension to `.xlsx`. -/
def ccOutName (newerName : String) : String :=
  stripExtBase newerName ++ "_clean" ++ ((extOf newerName).getD ".xlsx")

structure CCResult where
  filename : String
  rows : List Row
  rowCount : Nat
  duplicatesRemoved : Nat
  totalOriginalRows : Nat
  olderFileName : String
  newerFileName : String
deriving DecidableEq

def compareAndClean (curYear : Nat) (f1 f2 : UFile) : CCResult :=
  { filename := ccOutName (newerOf curYear f1 f2).originalname
    rows := cleanRows (flattenSheets (newerOf curYear f1 f2))
      (olderEmailList (flattenSheets (olderOf curYear f1 f2)))
    rowCount := (cleanRows (flattenSheets (newerOf curYear f1 f2))
      (olderEmailList (flattenSheets (olderOf curYear f1 f2)))).length
    duplicatesRemoved := (flattenSheets (newerOf curYear f1 f2)).countP
      (dropEmail (olderEmailList (flattenSheets (olderOf curYear f1 f2))))
    totalOriginalRows := (flattenSheets (newerOf curYear f1 f2)).length
    olderFileName := (olderOf curYear f1 f2).originalname
    newerFileName := (newerOf curYear f1 f2).originalname }

/-! ### Pipeline output filenames (`getTodayDate` and the three pipelines) -/

/-- `String(n).padStart(2, '0')`. -/
def padStart2 (s : String) : String :=
  String.mk (List.replicate (2 - s.data.length) '0') ++ s

def getTodayDate (d m y : Nat) : String :=
  padStart2 (toString d) ++ "_" ++ padStart2 (toString m) ++ "_" ++ toString y

def lacInfoFilename (d m y : Nat) : String :=
  "ads_ifag_" ++ getTodayDate d m y ++ ".xlsx"

def insagFilename (d m y : Nat) : String :=
  "ads_insag_" ++ getTodayDate d m y ++ ".xlsx"

def awarenessFilename (d m y : Nat) : String :=
  "ads_awareness_ifag_" ++ getTodayDate d m y ++ ".xlsx"

/-! ## Claim C8: deterministic fallback when a filename date is missing -/

/-- C8: when either (hence also when neither) filename yields a parseable
embedded date, the first of the two files is treated as the newer one —
deterministically and without error. -/
theorem claimC8 (curYear : Nat) (f1 f2 : UFile)
    (h : extractDateFromFilename f1.originalname = none ∨
         extractDateFromFilename f2.originalname = none) :
    newerOf curYear f1 f2 = f1 ∧ olderOf curYear f1 f2 = f2 ∧
    (compareAndClean curYear f1 f2).newerFileName = f1.originalname ∧
    (compareAndClean curYear f1 f2).olderFileName = f2.originalname := by
  have hb : determineNewerIsF1 curYear f1.originalname f2.originalname = true := by
    unfold determineNewerIsF1
    cases h1 : extractDateFromFilename f1.originalname with
    | none => rfl
    | some t1 =>
        cases h2 : extractDateFromFilename f2.originalname with
        | none => rfl
        | some t2 =>
            exfalso
            rcases h with h | h
            · rw [h1] at h
              exact Option.noConfusion h
            · rw [h2] at h
              exact Option.noConfusion h
  refine ⟨?_, ?_, ?_, ?_⟩ <;> simp [newerOf, olderOf, compareAndClean, hb]

/-- Witness for C8: a dateless first filename (against a dated second)
makes the first file the newer one. -/
theorem claimC8_witness :
    newerOf 2025 (UFile.mk "report.xlsx" []) (UFile.mk "data_05_10_2025.csv" []) =
      UFile.mk "report.xlsx" [] ∧
    olderOf 2025 (UFile.mk "report.xlsx" []) (UFile.mk "data_05_10_2025.csv" []) =
      UFile.mk "data_05_10_2025.csv" [] ∧
    (compareAndClean 2025 (UFile.mk "report.xlsx" [])
      (UFile.mk "data_05_10_2025.csv" [])).newerFileName = "report.xlsx" ∧
    (compareAndClean 2025 (UFile.mk "report.xlsx" [])
      (UFile.mk "data_05_10_2025.csv" [])).olderFileName = "data_05_10_2025.csv" :=
  claimC8 2025 (UFile.mk "report.xlsx" []) (UFile.mk "data_05_10_2025.csv" [])
    (Or.inl (by decide))

/-! ## Claim C7: Compare & Clean frame conditions -/

theorem countP_add_length_filter_not {α : Type} (p : α → Bool) (l : List α) :
    l.countP p + (l.filter (fun r => !p r)).length = l.length := by
  induction l with
  | nil => rfl
  | cons a t ih =>
      by_cases hp : p a = true
      · simp only [List.countP_cons, List.filter_cons, hp]
        simp
        omega
      · have hp' : p a = false := by
          cases hx : p a
          · rfl
          · exact absurd hx hp
        simp only [List.countP_cons, List.filter_cons, hp']
        simp
        omega

/-- C7: Compare & Clean is pure (deterministic by construction in this
embedding), reads the older file only through its extracted email set,
and emits kept rows of the newer file unchanged, as a sublist of the
newer file's flattened rows, with `dupes + kept = total`. -/
theorem claimC7 :
    (∀ (curYear : Nat) (f1 f2 : UFile),
      List.Sublist (compareAndClean curYear f1 f2).rows
        (flattenSheets (newerOf curYear f1 f2))) ∧
    (∀ (curYear : Nat) (f1 f2 : UFile),
      (compareAndClean curYear f1 f2).duplicatesRemoved +
        (compareAndClean curYear f1 f2).rowCount =
      (compareAndClean curYear f1 f2).totalOriginalRows) ∧
    (∀ (curYear : Nat) (f1 f2 : UFile),
      (compareAndClean curYear f1 f2).rows =
        cleanRows (flattenSheets (newerOf curYear f1 f2))
          (olderEmailList (flattenSheets (olderOf curYear f1 f2)))) ∧
    (∀ (newerRows : List Row) (olderA olderB : List Row),
      olderEmailList olderA = olderEmailList olderB →
      cleanRows newerRows (olderEmailList olderA) =
        cleanRows newerRows (olderEmailList olderB)) := by
  refine ⟨?_, ?_, ?_, ?_⟩
  · intro curYear f1 f2
    exact List.filter_sublist _
  · intro curYear f1 f2
    exact countP_add_length_filter_not _ _
  · intro curYear f1 f2
    rfl
  · intro newerRows olderA olderB h
    rw [h]

/-- Witness for C7: two older files with different rows but the same
extracted email set produce the same cleaning of a newer row list. -/
theorem claimC7_witness :
    cleanRows [[("email", "a@x.com")], [("x", "y")]]
        (olderEmailList [[("email", " A@x.com "), ("junk", "1")]]) =
      cleanRows [[("email", "a@x.com")], [("x", "y")]]
        (olderEmailList [[("Email", "a@X.com")]]) :=
  claimC7.2.2.2 [[("email", "a@x.com")], [("x", "y")]]
    [[("email", " A@x.com "), ("junk", "1")]] [[("Email", "a@X.com")]]
    (by decide)

/-! ## Claim C5: the email set and the drop rule -/

theorem mem_olderEmailList_iff (rows : List Row) (e : String) :
    e ∈ olderEmailList rows ↔
      ∃ r ∈ rows, ∃ v, extractEmail r = some v ∧
        jsIncludes v.data "@".data = true ∧ e = emailKey v := by
  unfold olderEmailList
  rw [List.mem_filterMap]
  constructor
  · rintro ⟨r, hr, hm⟩
    cases hv : extractEmail r with
    | none =>
        rw [hv] at hm
        exact absurd hm (by simp)
    | some v =>
        rw [hv] at hm
        dsimp only at hm
        by_cases hat : jsIncludes v.data "@".data = true
        · rw [if_pos hat] at hm
          exact ⟨r, hr, v, hv, hat, (Option.some_inj.mp hm).symm⟩
        · rw [if_neg hat] at hm
          exact absurd hm (by simp)
  · rintro ⟨r, hr, v, hv, hat, rfl⟩
    refine ⟨r, hr, ?_⟩
    rw [hv]
    dsimp only
    rw [if_pos hat]

theorem dropEmail_iff (set : List String) (r : Row) :
    dropEmail set r = true ↔
      ∃ v, extractEmail r = some v ∧ emailKey v ∈ set := by
  unfold dropEmail
  cases hv : extractEmail r with
  | none => simp
  | some v =>
      constructor
      · intro h
        exact ⟨v, rfl, List.mem_of_elem_eq_true h⟩
      · rintro ⟨w, hw, hmem⟩
        obtain rfl : v = w := Option.some_inj.mp hw
        exact List.elem_eq_true_of_mem hmem

theorem mem_cleanRows_iff (rows : List Row) (set : List String) (r : Row) :
    r ∈ cleanRows rows set ↔
      r ∈ rows ∧ ¬∃ v, extractEmail r = some v ∧ emailKey v ∈ set := by
  unfold cleanRows
  rw [List.mem_filter]
  constructor
  · rintro ⟨h1, h2⟩
    refine ⟨h1, fun hex => ?_⟩
    rw [(dropEmail_iff set r).mpr hex] at h2
    simp at h2
  · rintro ⟨h1, h2⟩
    refine ⟨h1, ?_⟩
    cases hx : dropEmail set r with
    | false => simp
    | true => exact absurd ((dropEmail_iff set r).mp hx) h2

/-- C5: the older file's email set is exactly the lowercased, trimmed,
`@`-containing first-variant emails of its rows; a newer row is kept iff
its email is absent or not in the set; and the spec's concrete example
(`{a@x.com, b@x.com}` older, newer rows `A@X.COM` / `c@x.com` / none)
keeps the last two rows and reports 1 duplicate out of 3. -/
theorem claimC5 :
    (∀ (rows : List Row) (e : String),
      e ∈ olderEmailList rows ↔
        ∃ r ∈ rows, ∃ v, extractEmail r = some v ∧
          jsIncludes v.data "@".data = true ∧ e = emailKey v) ∧
    (∀ (rows : List Row) (set : List String) (r : Row),
      r ∈ cleanRows rows set ↔
        r ∈ rows ∧ ¬∃ v, extractEmail r = some v ∧ emailKey v ∈ set) ∧
    (∀ curYear : Nat,
      (compareAndClean curYear
        (UFile.mk "newfile.xlsx"
          [[[("email", "A@X.COM")], [("mail", "c@x.com")], [("full_name", "NN")]]])
        (UFile.mk "oldfile.xlsx"
          [[[("email", "a@x.com")]], [[("Email", "b@x.com")]]])).rows =
        [[("mail", "c@x.com")], [("full_name", "NN")]] ∧
      (compareAndClean curYear
        (UFile.mk "newfile.xlsx"
          [[[("email", "A@X.COM")], [("mail", "c@x.com")], [("full_name", "NN")]]])
        (UFile.mk "oldfile.xlsx"
          [[[("email", "a@x.com")]], [[("Email", "b@x.com")]]])).duplicatesRemoved = 1 ∧
      (compareAndClean curYear
        (UFile.mk "newfile.xlsx"
          [[[("email", "A@X.COM")], [("mail", "c@x.com")], [("full_name", "NN")]]])
        (UFile.mk "oldfile.xlsx"
          [[[("email", "a@x.com")]], [[("Email", "b@x.com")]]])).totalOriginalRows = 3 ∧
      (compareAndClean curYear
        (UFile.mk "newfile.xlsx"
          [[[("email", "A@X.COM")], [("mail", "c@x.com")], [("full_name", "NN")]]])
        (UFile.mk "oldfile.xlsx"
          [[[("email", "a@x.com")]], [[("Email", "b@x.com")]]])).rowCount = 2) := by
  refine ⟨mem_olderEmailList_iff, mem_cleanRows_iff, ?_⟩
  intro curYear
  exact ⟨rfl, rfl, rfl, rfl⟩

/-! ## Claim C9: output filename conventions -/

@[simp]
theorem data_mk (l : List Char) : (String.mk l).data = l := rfl

theorem revSplice (cs : List Char) (n : Nat) :
    (cs.reverse.drop n).reverse ++ (cs.reverse.take n).reverse = cs := by
  rw [← List.reverse_append, List.take_append_drop, List.reverse_reverse]

theorem extSplitL_recombine (cs : List Char) :
    (extSplitL cs).1 ++ ((extSplitL cs).2.getD []) = cs := by
  unfold extSplitL
  by_cases h1 : (cs.reverse.take 5).map jsToLower = ['x','s','l','x','.']
  · rw [if_pos h1]
    exact revSplice cs 5
  · rw [if_neg h1]
    by_cases h2 : (cs.reverse.take 4).map jsToLower = ['s','l','x','.']
    · rw [if_pos h2]
      exact revSplice cs 4
    · rw [if_neg h2]
      by_cases h3 : (cs.reverse.take 4).map jsToLower = ['v','s','c','.']
      · rw [if_pos h3]
        exact revSplice cs 4
      · rw [if_neg h3]
        simp

theorem extSplitL_base_of_none {cs : List Char}
    (h : (extSplitL cs).2 = none) : (extSplitL cs).1 = cs := by
  unfold extSplitL at h ⊢
  by_cases h1 : (cs.reverse.take 5).map jsToLower = ['x','s','l','x','.']
  · rw [if_pos h1] at h
    exact absurd h (by simp)
  · rw [if_neg h1] at h ⊢
    by_cases h2 : (cs.reverse.take 4).map jsToLower = ['s','l','x','.']
    · rw [if_pos h2] at h
      exact absurd h (by simp)
    · rw [if_neg h2] at h ⊢
      by_cases h3 : (cs.reverse.take 4).map jsToLower = ['v','s','c','.']
      · rw [if_pos h3] at h
        exact absurd h (by simp)
      · rw [if_neg h3]

/-- C9: pipeline output filenames are exactly
`ads_<tag>_<DD_MM_YYYY>.xlsx` with zero-padded day and month, and the
Compare & Clean output filename is the newer file's extension-stripped
base plus `_clean` plus the original extension, `.xlsx` when no
recognized extension is present. -/
theorem claimC9 :
    (∀ d m y : Nat, lacInfoFilename d m y =
      "ads_" ++ "ifag" ++ "_" ++ padStart2 (toString d) ++ "_" ++
        padStart2 (toString m) ++ "_" ++ toString y ++ ".xlsx") ∧
    (∀ d m y : Nat, insagFilename d m y =
      "ads_" ++ "insag" ++ "_" ++ padStart2 (toString d) ++ "_" ++
        padStart2 (toString m) ++ "_" ++ toString y ++ ".xlsx") ∧
    (∀ d m y : Nat, awarenessFilename d m y =
      "ads_" ++ "awareness_ifag" ++ "_" ++ padStart2 (toString d) ++ "_" ++
        padStart2 (toString m) ++ "_" ++ toString y ++ ".xlsx") ∧
    (∀ name : String, stripExtBase name ++ ((extOf name).getD "") = name) ∧
    (∀ (name e : String), extOf name = some e →
      e.data.map jsToLower = ".xlsx".data ∨ e.data.map jsToLower = ".xls".data ∨
      e.data.map jsToLower = ".csv".data) ∧
    (∀ name : String, extOf name = none →
      ccOutName name = name ++ "_clean" ++ ".xlsx") ∧
    ccOutName "leads_07_10_2025.xlsx" = "leads_07_10_2025_clean.xlsx" ∧
    ccOutName "DATA.CSV" = "DATA_clean.CSV" ∧
    ccOutName "noext" = "noext_clean.xlsx" := by
  refine ⟨?_, ?_, ?_, ?_, ?_, ?_, by decide, by decide, by decide⟩
  · intro d m y
    rw [show ("ads_" ++ "ifag" ++ "_" : String) = "ads_ifag_" by decide]
    unfold lacInfoFilename getTodayDate
    simp [String.append_assoc]
  · intro d m y
    rw [show ("ads_" ++ "insag" ++ "_" : String) = "ads_insag_" by decide]
    unfold insagFilename getTodayDate
    simp [String.append_assoc]
  · intro d m y
    rw [show ("ads_" ++ "awareness_ifag" ++ "_" : String) = "ads_awareness_ifag_"
      by decide]
    unfold awarenessFilename getTodayDate
    simp [String.append_assoc]
  · intro name
    apply String.ext
    rw [String.data_append]
    unfold stripExtBase extOf
    cases hx : (extSplitL name.data).2 with
    | none =>
        simp only [hx, Option.map_none, Option.getD_none, data_mk]
        have h := extSplitL_recombine name.data
        rw [hx] at h
        simpa using h
    | some ext =>
        simp only [hx, Option.map_some, Option.getD_some, data_mk]
        have h := extSplitL_recombine name.data
        rw [hx] at h
        simpa using h
  · intro name e he
    unfold extOf extSplitL at he
    by_cases h1 : (name.data.reverse.take 5).map jsToLower = ['x','s','l','x','.']
    · rw [if_pos h1] at he
      have he' : String.mk ((List.take 5 name.data.reverse).reverse) = e :=
        Option.some_inj.mp he
      subst he'
      left
      rw [data_mk, List.map_reverse, h1]
      decide
    · rw [if_neg h1] at he
      by_cases h2 : (name.data.reverse.take 4).map jsToLower = ['s','l','x','.']
      · rw [if_pos h2] at he
        have he' : String.mk ((List.take 4 name.data.reverse).reverse) = e :=
          Option.some_inj.mp he
        subst he'
        right
        left
        rw [data_mk, List.map_reverse, h2]
        decide
      · rw [if_neg h2] at he
        by_cases h3 : (name.data.reverse.take 4).map jsToLower = ['v','s','c','.']
        · rw [if_pos h3] at he
          have he' : String.mk ((List.take 4 name.data.reverse).reverse) = e :=
            Option.some_inj.mp he
          subst he'
          right
          right
          rw [data_mk, List.map_reverse, h3]
          decide
        · rw [if_neg h3] at he
          exact absurd he (by simp)
  · intro name h
    unfold ccOutName
    rw [h]
    have hsome : (extSplitL name.data).2 = none := by
      unfold extOf at h
      exact Option.map_eq_none.mp h
    unfold stripExtBase
    rw [extSplitL_base_of_none hsome]
    have : String.mk name.data = name := String.ext (by simp)
    rw [this]
    simp

/-- Witness for C9: the recognized-extension and default-extension
branches at concrete filenames. -/
theorem claimC9_witness :
    (".XlSx".data.map jsToLower = ".xlsx".data ∨
      ".XlSx".data.map jsToLower = ".xls".data ∨
      ".XlSx".data.map jsToLower = ".csv".data) ∧
    ccOutName "noext2" = "noext2" ++ "_clean" ++ ".xlsx" :=
  ⟨claimC9.2.2.2.2.1 "a.XlSx" ".XlSx" (by decide),
   claimC9.2.2.2.2.2.1 "noext2" (by decide)⟩

/-! ## Claim C6: the Insag CNE IF row-skip rule
(`processInsagCneIf`, src/unnamed/part_002 lines 306–402) -/

/-- The part_002 revision's `normaliseRow`: phone and full name only. -/
def normaliseRowV2 (row : Row) : Row := normaliseFullName (normalisePhone row)

def insagCols : List String :=
  ["id", "created_time", "ad_id", "ad_name", "adset_id", "adset_name",
   "campaign_id", "campaign_name", "form_id", "is_organic", "platform"]

/-- `const originalFormName = r.form_name || ''`, captured after the
column deletions and before the rename. -/
def insagOrigForm (row : Row) : String :=
  (lookupRow (deleteCols row insagCols) "form_name").getD ""

/-- `r.opportunité = r.form_name; delete r.form_name` when present. -/
def renameFormName (r : Row) : Row :=
  match lookupRow r "form_name" with
  | some v => deleteRow (setRow r "opportunité" v) "form_name"
  | none => r

/-- The `CNE` fixes: `MBA Global CNE-copy` or exactly `CNE` become
`MBA Global CNE` (tested on the original value `opp`). -/
def insagRelabelCne (opp : String) (r : Row) : Row :=
  if jsIncludes opp.data "MBA Global CNE-copy".data then
    setRow r "opportunité" "MBA Global CNE"
  else if opp = "CNE" then setRow r "opportunité" "MBA Global CNE"
  else r

/-- The `MBA Global Octobre` fix, tested on the original value `opp`
after the CNE fixes ran. -/
def insagRelabelWith (opp : String) (r : Row) : Row :=
  if jsIncludes opp.data "MBA Global Octobre".data then
    setRow (insagRelabelCne opp r) "opportunité" "MBA Global Alger"
  else insagRelabelCne opp r

def insagRelabel (r : Row) : Row :=
  if truthy r "opportunité" then
    insagRelabelWith ((lookupRow r "opportunité").getD "") r
  else r

/-- Row state after column drop, rename, relabel and the `bu` constant. -/
def insagStage (row : Row) : Row :=
  setRow (insagRelabel (renameFormName (deleteCols row insagCols))) "bu"
    "insfag_crm_sale.business_unit_diploma_courses"

/-- `r.opportunité === 'MBA Global CNE'`. -/
def insagB1 (r : Row) : Bool :=
  decide (lookupRow r "opportunité" = some "MBA Global CNE")

/-- `String(r.opportunité || '').includes('MBA Global Octobre 24') ||
includes('MBA Global Alger')`. -/
def insagB2 (r : Row) : Bool :=
  jsIncludes ((lookupRow r "opportunité").getD "").data "MBA Global Octobre 24".data ||
  jsIncludes ((lookupRow r "opportunité").getD "").data "MBA Global Alger".data

/-- `String(r.opportunité || '').includes('Exécutive MBA Finance')`. -/
def insagB3 (r : Row) : Bool :=
  jsIncludes ((lookupRow r "opportunité").getD "").data "Exécutive MBA Finance".data

/-- The recognized-opportunity cascade, writing company / source / team /
product for the branch that matches. -/
def insagBranch (r : Row) : Row :=
  if insagB1 r then
    setRow (setRow r "company" "insfag_root.secondary_company") "product cible"
      "insfag_crm_sale.product_template_mba_mos"
  else if insagB2 r then
    setRow (setRow (setRow (setRow r "company" "base.main_company") "source"
      "__export__.utm_source_11_b17eb5a0") "Equipe commercial"
      "__export__.crm_team_6_3cd792db") "product cible"
      "insfag_crm_sale.product_template_mba_mos"
  else if insagB3 r then
    setRow (setRow r "company" "base.main_company") "product cible"
      "insfag_crm_sale.product_template_emba_sfe"
  else r

/-- The `hasRequiredFields` flag: some cascade branch matched. -/
def insagMatched (row : Row) : Bool :=
  insagB1 (insagStage row) || insagB2 (insagStage row) || insagB3 (insagStage row)

/-- `String(originalFormName).toLowerCase().includes('cne')`. -/
def insagCne (row : Row) : Bool :=
  jsIncludes ((insagOrigForm row).data.map jsToLower) "cne".data

/-- Row state after the cascade and the phone/name normalizers, with the
company forced to the secondary one when the form name contains `cne`. -/
def insagFinal (row : Row) : Row :=
  if insagCne row then
    setRow (normaliseRowV2 (insagBranch (insagStage row))) "company"
      "insfag_root.secondary_company"
  else normaliseRowV2 (insagBranch (insagStage row))

def seedSource (r : Row) : Row :=
  if truthy r "source" then r
  else setRow r "source" "__export__.utm_source_11_b17eb5a0"

def seedEquipe (r : Row) : Row :=
  if truthy r "Equipe commercial" then r
  else setRow r "Equipe commercial" "__export__.crm_team_6_3cd792db"

/-- One row of `processInsagCneIf`: `none` models the `return` that skips
the record, `some` the row pushed to the output sheet. -/
def insagRow (row : Row) : Option Row :=
  if insagMatched row then some (seedEquipe (seedSource (insagFinal row)))
  else if insagCne row ||
      (!truthy (insagFinal row) "source" &&
       !truthy (insagFinal row) "Equipe commercial" &&
       !truthy (insagFinal row) "product cible") then none
  else some (insagFinal row)

/-- C6: in the Insag CNE IF pipeline, a row whose opportunity relabel
matched no recognized category (hence lacks the derived fields that come
with a match) and whose original form name contains `cne`
(case-insensitive) is skipped entirely; a row whose relabel matched a
recognized category is always emitted. The decision is a per-row boolean
evaluated after relabeling, and defaults are seeded only for emitted
matched rows. -/
theorem claimC6 (row : Row) :
    (insagMatched row = true → (insagRow row).isSome = true) ∧
    (insagMatched row = false → insagCne row = true → insagRow row = none) := by
  constructor
  · intro h
    unfold insagRow
    rw [if_pos h]
    rfl
  · intro hm hc
    unfold insagRow
    rw [if_neg (by simp [hm]), if_pos (by simp [hc])]

/-- Witness for C6: the relabelled `CNE` form is recognized and emitted
despite its marker; an unrecognized form whose name contains `cne` is
skipped. -/
theorem claimC6_witness :
    insagMatched [("form_name", "CNE")] = true ∧
    (insagRow [("form_name", "CNE")]).isSome = true ∧
    insagMatched [("form_name", "Licence CNE special")] = false ∧
    insagCne [("form_name", "Licence CNE special")] = true ∧
    insagRow [("form_name", "Licence CNE special")] = none :=
  ⟨by decide, (claimC6 [("form_name", "CNE")]).1 (by decide), by decide,
   by decide,
   (claimC6 [("form_name", "Licence CNE special")]).2 (by decide) (by decide)⟩
